import Mathlib

/-!
Shallow embedding of `fundevogel/we-love-ajum` (src/src/ajum.py, src/src/helpers.py).

Conventions:
* Python `dict` objects are embedded as insertion-ordered association lists
  (`List (String × α)`); `d[k] = v` is `assocSet` (update in place, else append),
  matching CPython's ordered-dict semantics.
* Python strings are Lean `String`s; the handful of `str` methods the code uses
  (`strip`, `replace`, `split`, `join`, `in`) are re-implemented below on
  `List Char` by structural recursion so that every proof obligation reduces.
* `hashlib.md5(...).hexdigest()` is embedded as a full executable MD5 over `Nat`
  byte lists (RFC 1321), with arithmetic carried out modulo 2^32 explicitly.
* The filesystem (`os.path.exists`, `open`, `dump_json`, `load_json`, `glob`)
  is explicit state: a list of (path, content) pairs threaded through each
  operation, together with a log of the HTTP requests issued by `call_api`.
* External collaborators (the HTTP transport `requests.get`, the HTML parser
  BeautifulSoup, `urllib.parse` and the `redirects.json` data file) are an
  environment of oracle functions: `server` returns the raw response text for
  a merged parameter dict, `countMatches` is the result of
  `re.findall(r'wurden\s(\d+)\sRezensionen', html)`, `parsePage` is the parsed
  query dict of every hyperlink inside the `td_body` cell (`none` when the cell
  is missing, which in Python raises AttributeError), and `parseReviewCells`
  is the text of the `td` cells of the review table in document order (label
  cells are directly followed by their sibling value cells).
* Fallible code returns `Except PyExc`; `PyExc.nameErrorClick` is the
  `NameError` raised in `extract_results` because `ajum.py` uses `click`
  without importing it.
-/

set_option maxRecDepth 8192

deriving instance DecidableEq for Except

namespace Ajum

/-! ### Python string primitives (on `List Char`) -/

/-- Python whitespace as stripped by `str.strip()` (ASCII cases). -/
def pySpace (c : Char) : Bool :=
  c = ' ' || c = '\t' || c = '\n' || c = '\r' || c = '\x0b' || c = '\x0c'

def dropSpaces : List Char → List Char
  | [] => []
  | c :: cs => if pySpace c then dropSpaces cs else c :: cs

/-- `str.strip()`. -/
def pyStrip (s : String) : String :=
  ⟨(dropSpaces ((dropSpaces s.data).reverse)).reverse⟩

/-- Does `p` lead (prefix) the list `l`? -/
def leadsWithL : List Char → List Char → Bool
  | [], _ => true
  | _ :: _, [] => false
  | p :: ps, c :: cs => p = c && leadsWithL ps cs

/-- Is `p` a contiguous sublist of `l`? (Python `in` on strings.) -/
def isSubL (p : List Char) : List Char → Bool
  | [] => leadsWithL p []
  | c :: cs => leadsWithL p (c :: cs) || isSubL p cs

/-- Python `needle in haystack` for strings. -/
def hasSub (haystack needle : String) : Bool :=
  isSubL needle.data haystack.data

def containsChar (s : String) (c : Char) : Bool :=
  s.data.any (fun x => x = c)

/-- Fuel-driven core of `str.replace` (left-to-right, non-overlapping). -/
def pyReplaceAux (pat rep : List Char) : Nat → List Char → List Char
  | _, [] => []
  | 0, l => l
  | fuel + 1, c :: cs =>
    if pat ≠ [] && leadsWithL pat (c :: cs) then
      rep ++ pyReplaceAux pat rep fuel ((c :: cs).drop pat.length)
    else
      c :: pyReplaceAux pat rep fuel cs

/-- `s.replace(pat, rep)`. -/
def pyReplace (s pat rep : String) : String :=
  ⟨pyReplaceAux pat.data rep.data s.data.length s.data⟩

/-- `re.split('\n', s)` on the character list. -/
def splitNlL : List Char → List (List Char)
  | [] => [[]]
  | c :: cs =>
    if c = '\n' then [] :: splitNlL cs
    else
      match splitNlL cs with
      | [] => [[c]]
      | p :: ps => (c :: p) :: ps

/-- `re.split('\n', s)`. -/
def splitNl (s : String) : List String :=
  (splitNlL s.data).map (fun l => ⟨l⟩)

/-- `sep.join(parts)`. -/
def joinWith (sep : String) : List String → String
  | [] => ""
  | [s] => s
  | s :: rest => s ++ sep ++ joinWith sep rest

/-- Decimal digits of `n`, most significant first (fuel-driven). -/
def natDigitsAux : Nat → Nat → List Char
  | 0, _ => []
  | fuel + 1, n =>
    if n < 10 then [Char.ofNat (48 + n)]
    else natDigitsAux fuel (n / 10) ++ [Char.ofNat (48 + n % 10)]

/-- Python `str(n)` for a natural number. -/
def natStr (n : Nat) : String := ⟨natDigitsAux (n + 1) n⟩

/-- UTF-8 encoding of one character, as byte values. -/
def utf8Char (c : Char) : List Nat :=
  let n := c.toNat
  if n < 128 then [n]
  else if n < 2048 then [192 + n / 64, 128 + n % 64]
  else if n < 65536 then [224 + n / 4096, 128 + n / 64 % 64, 128 + n % 64]
  else [240 + n / 262144, 128 + n / 4096 % 64, 128 + n / 64 % 64, 128 + n % 64]

/-- `s.encode('utf-8')` as byte values. -/
def utf8Bytes (s : String) : List Nat := s.data.flatMap utf8Char

/-! ### MD5 (RFC 1321) over `Nat`, all words reduced modulo 2^32 -/

def md5K : List Nat := [
  0xd76aa478, 0xe8c7b756, 0x242070db, 0xc1bdceee, 0xf57c0faf, 0x4787c62a, 0xa8304613, 0xfd469501,
  0x698098d8, 0x8b44f7af, 0xffff5bb1, 0x895cd7be, 0x6b901122, 0xfd987193, 0xa679438e, 0x49b40821,
  0xf61e2562, 0xc040b340, 0x265e5a51, 0xe9b6c7aa, 0xd62f105d, 0x02441453, 0xd8a1e681, 0xe7d3fbc8,
  0x21e1cde6, 0xc33707d6, 0xf4d50d87, 0x455a14ed, 0xa9e3e905, 0xfcefa3f8, 0x676f02d9, 0x8d2a4c8a,
  0xfffa3942, 0x8771f681, 0x6d9d6122, 0xfde5380c, 0xa4beea44, 0x4bdecfa9, 0xf6bb4b60, 0xbebfbc70,
  0x289b7ec6, 0xeaa127fa, 0xd4ef3085, 0x04881d05, 0xd9d4d039, 0xe6db99e5, 0x1fa27cf8, 0xc4ac5665,
  0xf4292244, 0x432aff97, 0xab9423a7, 0xfc93a039, 0x655b59c3, 0x8f0ccc92, 0xffeff47d, 0x85845dd1,
  0x6fa87e4f, 0xfe2ce6e0, 0xa3014314, 0x4e0811a1, 0xf7537e82, 0xbd3af235, 0x2ad7d2bb, 0xeb86d391]

def md5S : List Nat := [
  7, 12, 17, 22, 7, 12, 17, 22, 7, 12, 17, 22, 7, 12, 17, 22,
  5, 9, 14, 20, 5, 9, 14, 20, 5, 9, 14, 20, 5, 9, 14, 20,
  4, 11, 16, 23, 4, 11, 16, 23, 4, 11, 16, 23, 4, 11, 16, 23,
  6, 10, 15, 21, 6, 10, 15, 21, 6, 10, 15, 21, 6, 10, 15, 21]

def mask32 : Nat := 4294967296

/-- 32-bit left rotation (input assumed `< 2^32`). -/
def rotl32 (x r : Nat) : Nat :=
  ((x <<< r) % mask32) ||| (x >>> (32 - r))

/-- Round function `F`/`G`/`H`/`I` selected by round index. -/
def md5F (i b c d : Nat) : Nat :=
  if i < 16 then (b &&& c) ||| ((b ^^^ 4294967295) &&& d)
  else if i < 32 then (d &&& b) ||| ((d ^^^ 4294967295) &&& c)
  else if i < 48 then b ^^^ c ^^^ d
  else c ^^^ (b ||| (d ^^^ 4294967295))

/-- Message-word index for round `i`. -/
def md5G (i : Nat) : Nat :=
  if i < 16 then i
  else if i < 32 then (5 * i + 1) % 16
  else if i < 48 then (3 * i + 5) % 16
  else (7 * i) % 16

/-- One MD5 round on state `(a, b, c, d)` with message words `m`. -/
def md5Round (m : List Nat) (st : Nat × Nat × Nat × Nat) (i : Nat) :
    Nat × Nat × Nat × Nat :=
  let a := st.1
  let b := st.2.1
  let c := st.2.2.1
  let d := st.2.2.2
  let f := (md5F i b c d + a + md5K.getD i 0 + m.getD (md5G i) 0) % mask32
  (d, (b + rotl32 f (md5S.getD i 0)) % mask32, b, c)

/-- Process one 64-byte block (given as 16 little-endian words). -/
def md5Block (st : Nat × Nat × Nat × Nat) (m : List Nat) : Nat × Nat × Nat × Nat :=
  let r := (List.range 64).foldl (md5Round m) st
  ((st.1 + r.1) % mask32, (st.2.1 + r.2.1) % mask32,
   (st.2.2.1 + r.2.2.1) % mask32, (st.2.2.2 + r.2.2.2) % mask32)

/-- 16 little-endian 32-bit words from 64 bytes. -/
def toWords : List Nat → List Nat
  | b0 :: b1 :: b2 :: b3 :: rest =>
    (b0 + 256 * b1 + 65536 * b2 + 16777216 * b3) :: toWords rest
  | _ => []

/-- Split into 64-byte chunks (fuel-driven). -/
def chunks64 : Nat → List Nat → List (List Nat)
  | 0, _ => []
  | _, [] => []
  | fuel + 1, l => l.take 64 :: chunks64 fuel (l.drop 64)

/-- Eight little-endian bytes of `n`. -/
def le8 (n : Nat) : List Nat :=
  [n % 256, n / 256 % 256, n / 65536 % 256, n / 16777216 % 256,
   n / 4294967296 % 256, n / 1099511627776 % 256,
   n / 281474976710656 % 256, n / 72057594037927936 % 256]

/-- Four little-endian bytes of a 32-bit word. -/
def le4 (n : Nat) : List Nat :=
  [n % 256, n / 256 % 256, n / 65536 % 256, n / 16777216 % 256]

/-- MD5 padding: `0x80`, zeros to 56 mod 64, then the 64-bit bit length. -/
def md5Pad (m : List Nat) : List Nat :=
  let z := (120 - (m.length + 1) % 64) % 64
  m ++ [128] ++ List.replicate z 0 ++ le8 (8 * m.length)

/-- MD5 digest (16 bytes) of a byte list. -/
def md5Bytes (m : List Nat) : List Nat :=
  let p := md5Pad m
  let r := (chunks64 p.length p).foldl (fun st blk => md5Block st (toWords blk))
    (0x67452301, 0xefcdab89, 0x98badcfe, 0x10325476)
  le4 r.1 ++ le4 r.2.1 ++ le4 r.2.2.1 ++ le4 r.2.2.2

def hexDigits : List Char := "0123456789abcdef".data

def hexChar (n : Nat) : Char := hexDigits.getD n '0'

def byteHex (b : Nat) : List Char := [hexChar (b / 16), hexChar (b % 16)]

/-- `hashlib.md5(s.encode('utf-8')).hexdigest()`. -/
def md5Hex (s : String) : String :=
  ⟨(md5Bytes (utf8Bytes s)).flatMap byteHex⟩

/-! ### Python dicts as insertion-ordered association lists -/

/-- `d[k] = v`: update in place if the key exists, else append at the end. -/
def assocSet {α : Type} : List (String × α) → String → α → List (String × α)
  | [], k, v => [(k, v)]
  | (k', v') :: rest, k, v =>
    if k' = k then (k, v) :: rest else (k', v') :: assocSet rest k v

/-- `d[k]` / `d.get(k)`: first (unique) binding of `k`. -/
def assocGet {α : Type} : List (String × α) → String → Option α
  | [], _ => none
  | (k', v') :: rest, k => if k' = k then some v' else assocGet rest k

/-- Query parameters: `dict[str, str]` preserving insertion order. -/
abbrev PyDict := List (String × String)

/-- `{**a, **b}`: items of `a`, then items of `b` assigned one by one. -/
def pyMerge (a b : PyDict) : PyDict :=
  b.foldl (fun acc kv => assocSet acc kv.1 kv.2) a

/-- Python `repr` of a simple quote-free string. -/
def reprEntry (kv : String × String) : String :=
  "'" ++ kv.1 ++ "': '" ++ kv.2 ++ "'"

/-- `str(d)` for a `dict[str, str]` whose keys and values contain no quote,
backslash or control character (true of every query-parameter dict the code
builds): `\x7bkey-value pairs in insertion order, comma separated\x7d`. -/
def pyStr (d : PyDict) : String :=
  "\x7b" ++ joinWith ", " (d.map reprEntry) ++ "\x7d"

/-- helpers.py `dict2hash`: `hashlib.md5(str(source).encode('utf-8')).hexdigest()`. -/
def dict2hash (source : PyDict) : String := md5Hex (pyStr source)

/-! ### Filesystem state, request log, environment -/

/-- Content of a cache file: raw review HTML or a dumped JSON list of ids. -/
inductive FileContent : Type
  | html (s : String)
  | json (ids : List String)
deriving DecidableEq

/-- Explicit state: the cache directory's files and the log of parameter
dicts passed to `requests.get` by `call_api` (in order). -/
structure St : Type where
  fs : List (String × FileContent)
  calls : List PyDict
deriving DecidableEq

/-- Python exceptions the embedded code can raise. -/
inductive PyExc : Type
  | nameErrorClick      -- NameError: 'click' is not defined (ajum.py has no import click)
  | attributeError      -- AttributeError: 'NoneType' has no attribute ... (bs4 find chain)
  | fileNotFoundError
  | jsonDecodeError
deriving DecidableEq

/-- Oracles for the external collaborators (HTTP transport, BeautifulSoup,
urllib and the `redirects.json` data file). -/
structure Env : Type where
  /-- `requests.get(base_url, params=params, headers=headers).text`. -/
  server : PyDict → String
  /-- Parsed `re.findall(r'wurden\s(\d+)\sRezensionen', html)` matches. -/
  countMatches : String → List Nat
  /-- Query dict (`urllib.parse.parse_qs`, first values) of each hyperlink in
  the `td_body` cell; `none` when the cell is missing (AttributeError). -/
  parsePage : String → Option (List PyDict)
  /-- Texts of the `td` cells of the review-data table, in document order;
  `none` when the bs4 find chain fails (AttributeError). The input has already
  had `<br>` replaced by newlines (done by `extract_review` before parsing). -/
  parseReviewCells : String → Option (List String)
  /-- `load_json('redirects.json')`. -/
  redirects : PyDict

/-- Cache directory (the class default `.db`). -/
def cacheDir : String := ".db"

/-- `Ajum.id2file`. -/
def id2file (review : String) : String := cacheDir ++ "/" ++ review ++ ".html"

/-- `Ajum.hash2file`. -/
def hash2file (params : PyDict) : String :=
  cacheDir ++ "/" ++ dict2hash params ++ ".json"

/-- The base parameter merged in by `call_api`. -/
def baseParams : PyDict := [("s", "datenbank")]

/-- `Ajum.call_api`: merge the base params, log the request, return the
response text (the sleep and the headers have no observable effect here). -/
def call_api (env : Env) (st : St) (params : PyDict) : St × String :=
  let merged := pyMerge baseParams params
  (⟨st.fs, st.calls ++ [merged]⟩, env.server merged)

/-- helpers.py `load_json` on the embedded filesystem. -/
def load_json (fs : List (String × FileContent)) (f : String) :
    Except PyExc (List String) :=
  match assocGet fs f with
  | none => .error .fileNotFoundError
  | some (.json ids) => .ok ids
  | some (.html _) => .error .jsonDecodeError

/-- helpers.py `dump_json` / `file.write`: create or truncate-overwrite. -/
def writeFile (fs : List (String × FileContent)) (f : String) (c : FileContent) :
    List (String × FileContent) :=
  assocSet fs f c

/-! ### Results pages -/

/-- `re.match(r'\d+', s)` succeeds iff `s` starts with a digit. -/
def startsDigit (s : String) : Bool :=
  match s.data with
  | [] => false
  | c :: _ => c.isDigit

/-- `reviews.add(x)` on the Python set, modelled by its insertion-ordered list
of distinct elements (adequate for the membership and multiplicity facts
proved here; CPython does not fix the set's iteration order). -/
def setAdd (acc : List String) (x : String) : List String :=
  if acc.contains x then acc else acc ++ [x]

/-- The loop body of `Ajum.extract_results` over the parsed links. When an id
(after redirect remapping) fails `re.match(r'\d+', ...)`, the code evaluates
`click.echo(...)` — but ajum.py never imports `click`, so a `NameError` is
raised before anything is echoed. -/
def collectIds (redirects : PyDict) : List PyDict → List String →
    Except PyExc (List String)
  | [], acc => .ok acc
  | q :: rest, acc =>
    match assocGet q "id" with
    | none => collectIds redirects rest acc
    | some r0 =>
      let review := match assocGet redirects r0 with
        | some r => r
        | none => r0
      if !startsDigit review then .error .nameErrorClick
      else collectIds redirects rest (setAdd acc review)

/-- `Ajum.extract_results`. The first component is the list of messages
echoed to the user (always empty: the reporting line itself raises). -/
def extract_results (env : Env) (html : String) :
    List String × Except PyExc (List String) :=
  match env.parsePage html with
  | none => ([], .error .attributeError)
  | some links => ([], collectIds env.redirects links [])

/-- `Ajum.fetch_results`: skip when the JSON cache file exists, else request
the page, extract ids and dump them; returns `os.path.exists(json_file)`. -/
def fetch_results (env : Env) (st : St) (params : PyDict) :
    St × Except PyExc Bool :=
  let jsonFile := hash2file params
  if (assocGet st.fs jsonFile).isSome then (st, .ok true)
  else
    let r := call_api env st params
    match (extract_results env r.2).2 with
    | .error e => (r.1, .error e)
    | .ok ids => (⟨writeFile r.1.fs jsonFile (.json ids), r.1.calls⟩, .ok true)

/-- The `for i in range(1, matches[0] // 50 + 1)` loop of `Ajum.get_results`:
mutates `params['start']` in place, fetches, and collects the JSON file names.
Returns final state, final (mutated) params, collected files, and the
exception aborting the loop, if any. -/
def pagesLoop (env : Env) : St → PyDict → List Nat →
    St × PyDict × List String × Option PyExc
  | st, params, [] => (st, params, [], none)
  | st, params, i :: rest =>
    let params1 := assocSet params "start" (natStr (i * 50))
    match fetch_results env st params1 with
    | (st1, .error e) => (st1, params1, [], some e)
    | (st1, .ok b) =>
      let r := pagesLoop env st1 params1 rest
      (r.1, r.2.1, (if b then [hash2file params1] else []) ++ r.2.2.1, r.2.2.2)

/-- `reviews.extend(load_json(json_file))` over the collected files. -/
def loadAll (fs : List (String × FileContent)) : List String →
    Except PyExc (List String)
  | [] => .ok []
  | f :: rest =>
    match load_json fs f with
    | .error e => .error e
    | .ok ids =>
      match loadAll fs rest with
      | .error e => .error e
      | .ok more => .ok (ids ++ more)

/-- `Ajum.get_results`. Returns the final state, the caller-visible content of
the (shared, mutated) `params` dict, and the review-id list or exception. -/
def get_results (env : Env) (st : St) (params : PyDict) :
    St × PyDict × Except PyExc (List String) :=
  let r0 := call_api env st params
  match env.countMatches r0.2 with
  | [] => (r0.1, params, .ok [])
  | n :: _ =>
    match fetch_results env r0.1 params with
    | (st2, .error e) => (st2, params, .error e)
    | (st2, .ok ok0) =>
      if !ok0 then (st2, params, .ok [])
      else
        let r := pagesLoop env st2 params (List.range' 1 (n / 50))
        match r.2.2.2 with
        | some e => (r.1, r.2.1, .error e)
        | none =>
          match (extract_results env r0.2).2 with
          | .error e => (r.1, r.2.1, .error e)
          | .ok reviews0 =>
            match loadAll r.1.fs r.2.2.1 with
            | .error e => (r.1, r.2.1, .error e)
            | .ok more => (r.1, r.2.1, .ok (reviews0 ++ more))

/-! ### Single review pages -/

/-- The disclaimer marker checked by `fetch_review`. -/
def marker : String := "presserechtliche Verantwortung"

/-- `Ajum.fetch_review`: hit the HTML cache, else request the page, validate
the disclaimer (invalid pages are not written) and cache the response. -/
def fetch_review (env : Env) (st : St) (review : String) : St × Bool :=
  let htmlFile := id2file review
  if (assocGet st.fs htmlFile).isSome then (st, true)
  else
    let r := call_api env st [("id", review)]
    if !hasSub r.2 marker then (r.1, false)
    else (⟨writeFile r.1.fs htmlFile (.html r.2), r.1.calls⟩, true)

/-- A review-record field: a single string or a paragraph list. -/
inductive FieldVal : Type
  | str (s : String)
  | list (l : List String)
deriving DecidableEq

/-- A review record: `dict[str, str | list[str]]` in insertion order. -/
abbrev PyRecord := List (String × FieldVal)

/-- The fixed label list of `Ajum.extract_review`, in source order. -/
def terms : List String :=
  ["Autor", "Titel", "ISBN", "Übersetzer", "Originalsprache", "Illustrator",
   "Seitenanzahl", "Verlag", "Gattung", "Reihe", "Jahr", "Preis", "Inhalt",
   "Lesealter", "Einsatzmöglichkeiten", "WolgastPreis", "Bewertung",
   "Schlagwörter", "Anmerkungen", "Beurteilungstext"]

/-- The three running-text fields kept as paragraph lists. -/
def narrativeTerms : List String := ["Inhalt", "Anmerkungen", "Beurteilungstext"]

/-- `tag.text.replace('\n', '').replace(' ', '')`. -/
def normalizeLabel (s : String) : String :=
  pyReplace (pyReplace s "\n" "") " " ""

/-- The inner `process` helper of `extract_review`: strip, then normalize the
legacy single-byte quotation/ellipsis/dash characters. -/
def process (s : String) : String :=
  pyReplace (pyReplace (pyReplace (pyReplace (pyReplace (pyStrip s)
    "\u0084" "\"") "\u0093" "\"") "\u0085" "...") "\u0094" "\". ") "\u0096" "-"

/-- The `for term in [...]` loop: skip labels already extracted, return the
first remaining term whose `label + ':'` matches the normalized cell text. -/
def findTerm (d : PyRecord) (cellText : String) : List String → Option String
  | [] => none
  | t :: ts =>
    if (assocGet d t).isSome then findTerm d cellText ts
    else if normalizeLabel cellText = t ++ ":" then some t
    else findTerm d cellText ts

/-- Value stored for term `t` from the processed sibling-cell lines. -/
def cellValue (t : String) (texts : List String) : FieldVal :=
  if narrativeTerms.contains t then .list (texts.filter (fun x => x ≠ ""))
  else .str (pyStrip (joinWith " " texts))

/-- The cell loop of `Ajum.extract_review` over the table's `td` texts in
document order (a label cell is directly followed by its value sibling; the
binding value sits three cells after the `Preis:` label). Missing siblings
raise AttributeError, as `None.text` does in Python. -/
def extractCells : List String → PyRecord → Except PyExc PyRecord
  | [], data => .ok data
  | c :: rest, data =>
    if data.length = 21 then .ok data
    else if !containsChar c ':' then extractCells rest data
    else
      let step : Except PyExc PyRecord :=
        match findTerm data c terms with
        | none => .ok data
        | some t =>
          match rest with
          | [] => .error .attributeError
          | sib :: _ =>
            .ok (assocSet data t (cellValue t ((splitNl sib).map process)))
      match step with
      | .error e => .error e
      | .ok data1 =>
        if pyStrip c = "Preis:" then
          match rest.get? 2 with
          | none => .error .attributeError
          | some b => extractCells rest (assocSet data1 "Einband" (.str (pyStrip b)))
        else extractCells rest data1

/-- `Ajum.extract_review` after bs4 parsing: run the cell loop on the empty
record, then collapse inner whitespace of the ISBN field. -/
def extractReviewCells (cells : List String) : Except PyExc PyRecord :=
  match extractCells cells [] with
  | .error e => .error e
  | .ok data =>
    .ok (match assocGet data "ISBN" with
      | some (.str s) => assocSet data "ISBN" (.str (pyReplace s " " ""))
      | _ => data)

/-- `Ajum.extract_review`: replace `<br>` by newlines, parse (bs4), extract. -/
def extract_review (env : Env) (html : String) : Except PyExc PyRecord :=
  match env.parseReviewCells (pyReplace html "<br>" "\n") with
  | none => .error .attributeError
  | some cells => extractReviewCells cells

/-- `Ajum.get_review`: empty dict when the fetch fails, else read the cached
HTML back and extract it. -/
def get_review (env : Env) (st : St) (review : String) :
    St × Except PyExc PyRecord :=
  match fetch_review env st review with
  | (st1, false) => (st1, .ok [])
  | (st1, true) =>
    match assocGet st1.fs (id2file review) with
    | some (.html html) => (st1, extract_review env html)
    | _ => (st1, .error .fileNotFoundError)

/-- The `for review in reviews` loop of `Ajum.get_reviews`. -/
def getReviewsLoop (env : Env) : St → List (String × PyRecord) → List String →
    St × Except PyExc (List (String × PyRecord))
  | st, data, [] => (st, .ok data)
  | st, data, r :: rest =>
    match get_review env st r with
    | (st1, .error e) => (st1, .error e)
    | (st1, .ok rec) => getReviewsLoop env st1 (assocSet data r rec) rest

/-- `Ajum.get_reviews`: one record per listed id, as an insertion-ordered
dict. -/
def get_reviews (env : Env) (st : St) (reviews : List String) :
    St × Except PyExc (List (String × PyRecord)) :=
  getReviewsLoop env st [] reviews

/-! ### Cache clearing -/

/-- Strip a leading pattern, if present. -/
def dropLead : List Char → List Char → Option (List Char)
  | [], l => some l
  | _ :: _, [] => none
  | p :: ps, c :: cs => if p = c then dropLead ps cs else none

/-- Nonempty and not starting with a dot (glob's `*` skips hidden files). -/
def headNotDot : List Char → Bool
  | [] => false
  | c :: _ => c ≠ '.'

/-- Does the basename match the glob pattern `*.json`? It must not be hidden,
contain no path separator, and end in `.json`. -/
def baseOkJson (base : List Char) : Bool :=
  headNotDot base && base.all (fun c => c ≠ '/')
    && leadsWithL ".json".data.reverse base.reverse

/-- Does `glob.glob('.db/*.json')` match this path? The basename must live
directly in `.db` and match `*.json`. -/
def globJson (path : String) : Bool :=
  match dropLead (cacheDir ++ "/").data path.data with
  | none => false
  | some base => baseOkJson base

/-- `Ajum.clear_cache`: delete every file matched by `glob('.db/*.json')`. -/
def clear_cache (st : St) : St :=
  ⟨st.fs.filter (fun e => !globJson e.1), st.calls⟩

/-! ### Concrete environments used by counterexamples and witnesses -/

/-- A remote database with `count` matches whose every results page carries a
single hyperlink to review `7`. -/
def envN (count : Nat) : Env where
  server := fun _ => "PAGE"
  countMatches := fun _ => [count]
  parsePage := fun _ => some [[("id", "7")]]
  parseReviewCells := fun _ => none
  redirects := []

/-- The empty initial state: empty cache, no requests issued yet. -/
def st0 : St := ⟨[], []⟩

/-- A remote database that serves pages with no disclaimer marker and no
parsable content. -/
def envE : Env where
  server := fun _ => "nothing here"
  countMatches := fun _ => []
  parsePage := fun _ => none
  parseReviewCells := fun _ => none
  redirects := []

/-- A results page carrying a single hyperlink with the non-numeric id
`abc` (and an empty `redirects.json`). -/
def envC : Env where
  server := fun _ => "HTML"
  countMatches := fun _ => []
  parsePage := fun _ => some [[("id", "abc")]]
  parseReviewCells := fun _ => none
  redirects := []

/-- A review page whose data table is the author row `Autor: / Doe, John,`. -/
def envR : Env where
  server := fun _ => ""
  countMatches := fun _ => []
  parsePage := fun _ => none
  parseReviewCells := fun _ => some ["Autor:", "Doe, John,"]
  redirects := []

/-- The response text `call_api` obtains for review id `review`. -/
def pageOf (env : Env) (review : String) : String :=
  env.server (pyMerge baseParams [("id", review)])

/-- The params dict after iteration `i` of the `get_results` page loop. -/
def ppage (params : PyDict) (i : Nat) : PyDict :=
  assocSet params "start" (natStr (i * 50))

/-- During `get_reviews`, the cache only grows by HTML files of
marker-carrying fetched review pages on top of the starting contents. -/
def CacheInv (env : Env) (base fs : List (String × FileContent)) : Prop :=
  ∃ extra, fs = base ++ extra ∧
    ∀ e ∈ extra, ∃ r, e = (id2file r, FileContent.html (pageOf env r)) ∧
      hasSub (pageOf env r) marker = true

/-! ### Association-list lemmas -/

theorem assocGet_set_self {α : Type} (d : List (String × α)) (k : String) (v : α) :
    assocGet (assocSet d k v) k = some v := by
  induction d with
  | nil => simp [assocSet, assocGet]
  | cons e rest ih =>
    obtain ⟨k', v'⟩ := e
    by_cases h : k' = k <;> simp [assocSet, assocGet, h, ih]

theorem assocGet_set_ne {α : Type} (d : List (String × α)) (k k' : String) (v : α)
    (h : k' ≠ k) : assocGet (assocSet d k v) k' = assocGet d k' := by
  have h' : ¬k = k' := fun he => h he.symm
  induction d with
  | nil => simp [assocSet, assocGet, h']
  | cons e rest ih =>
    obtain ⟨k0, v0⟩ := e
    by_cases h0 : k0 = k
    · subst h0
      simp [assocSet, assocGet, h']
    · simp [assocSet, assocGet, h0, ih]

theorem assocSet_assocSet {α : Type} (d : List (String × α)) (k : String) (v w : α) :
    assocSet (assocSet d k v) k w = assocSet d k w := by
  induction d with
  | nil => simp [assocSet]
  | cons e rest ih =>
    obtain ⟨k0, v0⟩ := e
    by_cases h0 : k0 = k <;> simp [assocSet, h0, ih]

theorem assocSet_of_none {α : Type} (d : List (String × α)) (k : String) (v : α)
    (h : assocGet d k = none) : assocSet d k v = d ++ [(k, v)] := by
  induction d with
  | nil => simp [assocSet]
  | cons e rest ih =>
    obtain ⟨k0, v0⟩ := e
    by_cases h0 : k0 = k
    · rw [assocGet, if_pos h0] at h
      cases h
    · rw [assocGet, if_neg h0] at h
      simp [assocSet, h0, ih h]

theorem assocGet_append_of_none {α : Type} (a b : List (String × α)) (k : String)
    (h : assocGet a k = none) : assocGet (a ++ b) k = assocGet b k := by
  induction a with
  | nil => simp
  | cons e rest ih =>
    obtain ⟨k0, v0⟩ := e
    by_cases h0 : k0 = k
    · rw [assocGet, if_pos h0] at h
      cases h
    · rw [assocGet, if_neg h0] at h
      simpa [assocGet, h0] using ih h

theorem assocGet_mem {α : Type} (d : List (String × α)) (k : String) (v : α)
    (h : assocGet d k = some v) : (k, v) ∈ d := by
  induction d with
  | nil => cases h
  | cons e rest ih =>
    obtain ⟨k0, v0⟩ := e
    by_cases h0 : k0 = k
    · rw [assocGet, if_pos h0] at h
      cases h
      subst h0
      exact List.mem_cons_self _ _
    · rw [assocGet, if_neg h0] at h
      exact List.mem_cons_of_mem _ (ih h)

theorem assocSet_keys {α : Type} (d : List (String × α)) (k k' : String) (v : α) :
    k' ∈ (assocSet d k v).map Prod.fst ↔ k' ∈ d.map Prod.fst ∨ k' = k := by
  induction d with
  | nil => simp [assocSet]
  | cons e rest ih =>
    obtain ⟨k0, v0⟩ := e
    by_cases h0 : k0 = k
    · subst h0
      simp [assocSet]
      tauto
    · simp [assocSet, h0, ih]
      tauto

/-! ### String helper lemmas -/

theorem data_append (s t : String) : (s ++ t).data = s.data ++ t.data := rfl

theorem splitNlL_no_nl (l : List Char) (h : ∀ c ∈ l, c ≠ '\n') :
    splitNlL l = [l] := by
  induction l with
  | nil => rfl
  | cons c cs ih =>
    have hc : c ≠ '\n' := h c (List.mem_cons_self _ _)
    have hrest : splitNlL cs = [cs] := ih (fun x hx => h x (List.mem_cons_of_mem _ hx))
    simp [splitNlL, hc, hrest]

theorem splitNl_no_nl (s : String) (h : containsChar s '\n' = false) :
    splitNl s = [s] := by
  have hall : ∀ c ∈ s.data, c ≠ '\n' := by
    intro c hc
    have := List.any_eq_false.mp h c hc
    simpa using this
  simp [splitNl, splitNlL_no_nl s.data hall]

/-! ### Claim C1: the cache-key hash -/

/-- C1, counterexample. Two parameter dicts with identical key-value content
but opposite insertion order hash differently: `dict2hash` is md5 of the
insertion-ordered `str(dict)` serialization, so it is **not** independent of
insertion order. -/
theorem dict2hash_insertion_order_cex :
    ([("a", "1"), ("b", "2")] : PyDict).Perm [("b", "2"), ("a", "1")] ∧
    dict2hash [("a", "1"), ("b", "2")] ≠ dict2hash [("b", "2"), ("a", "1")] := by
  constructor
  · exact List.Perm.swap _ _ _
  · decide

/-- C1, amended. `dict2hash` is a pure function of the dict's `str(...)`
serialization: any two dicts (in particular, the same dict on repeated
invocations) with equal serializations receive equal hash strings. Equal
content in a different insertion order, however, serializes differently and
may hash differently (see the counterexample). -/
theorem dict2hash_serialization_deterministic (d1 d2 : PyDict)
    (h : pyStr d1 = pyStr d2) : dict2hash d1 = dict2hash d2 :=
  congrArg md5Hex h

theorem dict2hash_serialization_deterministic_witness :
    pyStr [("a", "1")] = pyStr [("a", "1")] ∧
    dict2hash [("a", "1")] = dict2hash [("a", "1")] :=
  ⟨rfl, dict2hash_serialization_deterministic [("a", "1")] [("a", "1")] rfl⟩

/-! ### Claim C5: invalid review ids during extraction -/

/-- C5 (code bug). On a results page carrying the non-numeric review id
`abc`, `extract_results` raises `NameError` — `ajum.py` calls
`click.echo(...)` without ever importing `click` — so the batch aborts with
an unintended exception and the invalid identifier is **never reported**
(the echo log is empty): the code contradicts its own comments
(`.. report it` / `.. abort execution`). The id is not silently skipped or
included, but the promised report does not happen. -/
theorem extract_results_invalid_id_nameerror :
    extract_results envC "HTML" = ([], .error PyExc.nameErrorClick) := by decide

/-! ### Claim C6: pages without the disclaimer marker -/

/-- C6. For an uncached review id whose fetched page lacks the disclaimer
marker, `fetch_review` reports failure and writes nothing to the cache, and
`get_review` returns the empty record. -/
theorem fetch_review_no_marker_spec (env : Env) (st : St) (review : String)
    (hnc : assocGet st.fs (id2file review) = none)
    (hm : hasSub (pageOf env review) marker = false) :
    (fetch_review env st review).2 = false ∧
    (fetch_review env st review).1.fs = st.fs ∧
    (get_review env st review).2 = .ok [] := by
  have h1 : (assocGet st.fs (id2file review)).isSome = false := by
    rw [hnc]; rfl
  have hm' : hasSub (env.server (pyMerge baseParams [("id", review)])) marker = false := hm
  unfold get_review fetch_review call_api
  simp [h1, hm']

theorem fetch_review_no_marker_spec_witness :
    (assocGet st0.fs (id2file "1") = none ∧
     hasSub (pageOf envE "1") marker = false) ∧
    ((fetch_review envE st0 "1").2 = false ∧
     (fetch_review envE st0 "1").1.fs = st0.fs ∧
     (get_review envE st0 "1").2 = .ok []) :=
  ⟨⟨by decide, by decide⟩,
   fetch_review_no_marker_spec envE st0 "1" (by decide) (by decide)⟩

/-! ### Claim C7: fetches never overwrite existing cache entries -/

/-- C7. A cache entry that exists before a fetch still holds the same content
afterwards: `fetch_review` and `fetch_results` only ever write at keys whose
file does not yet exist (the `if not os.path.exists` guards). -/
theorem fetch_never_overwrites (env : Env) (st : St) (params : PyDict)
    (review k : String) (v : FileContent)
    (h : assocGet st.fs k = some v) :
    assocGet (fetch_review env st review).1.fs k = some v ∧
    assocGet (fetch_results env st params).1.fs k = some v := by
  constructor
  · unfold fetch_review call_api
    by_cases hc : (assocGet st.fs (id2file review)).isSome
    · simp [hc, h]
    · have hnone : assocGet st.fs (id2file review) = none := by
        cases hval : assocGet st.fs (id2file review)
        · rfl
        · rw [hval] at hc; simp at hc
      have hne : k ≠ id2file review := by
        intro he
        rw [he, hnone] at h
        cases h
      by_cases hmark : hasSub (env.server (pyMerge baseParams [("id", review)])) marker
      · simp [hc, hmark, writeFile, assocGet_set_ne _ _ _ _ hne, h]
      · simp [hc, hmark, h]
  · unfold fetch_results call_api
    by_cases hc : (assocGet st.fs (hash2file params)).isSome
    · simp [hc, h]
    · have hnone : assocGet st.fs (hash2file params) = none := by
        cases hval : assocGet st.fs (hash2file params)
        · rfl
        · rw [hval] at hc; simp at hc
      have hne : k ≠ hash2file params := by
        intro he
        rw [he, hnone] at h
        cases h
      cases hres : (extract_results env (env.server (pyMerge baseParams params))).2
      · simp [hc, hres, h]
      · simp [hc, hres, writeFile, assocGet_set_ne _ _ _ _ hne, h]

theorem fetch_never_overwrites_witness :
    (assocGet [(".db/9.html", FileContent.html "x")] ".db/9.html" =
      some (FileContent.html "x")) ∧
    (assocGet (fetch_review envE ⟨[(".db/9.html", FileContent.html "x")], []⟩ "1").1.fs
      ".db/9.html" = some (FileContent.html "x") ∧
     assocGet (fetch_results envE ⟨[(".db/9.html", FileContent.html "x")], []⟩ []).1.fs
      ".db/9.html" = some (FileContent.html "x")) :=
  ⟨by decide,
   fetch_never_overwrites envE ⟨[(".db/9.html", FileContent.html "x")], []⟩ [] "1"
     ".db/9.html" (FileContent.html "x") (by decide)⟩

/-! ### Claim C9: the author field keeps its trailing comma -/

/-- C9, counterexample. An author cell whose value ends in a comma is
returned with the comma intact: `extract_review` performs no trailing-comma
stripping (only whitespace stripping and the legacy character replacements),
contrary to the claimed post-processing rule. -/
theorem extract_review_trailing_comma_cex :
    extract_review envR "page" = .ok [("Autor", FieldVal.str "Doe, John,")] ∧
    "Doe, John,".data.getLast? = some ',' := by
  constructor
  · decide
  · decide

/-- C9, amended. The author field is returned verbatim: for any single-line
author cell value that is already stripped and free of the legacy special
characters, `extract_review` stores exactly that string — in particular a
trailing comma is preserved, not stripped. -/
theorem extract_review_author_verbatim (env : Env) (html s : String)
    (hcells : env.parseReviewCells (pyReplace html "<br>" "\n") = some ["Autor:", s])
    (hc : containsChar s ':' = false)
    (hn : containsChar s '\n' = false)
    (hstrip : pyStrip s = s)
    (hproc : process s = s) :
    extract_review env html = .ok [("Autor", FieldVal.str s)] := by
  have hsplit : splitNl s = [s] := splitNl_no_nl s hn
  have h1 : extractCells ["Autor:", s] [] =
      extractCells [s] [("Autor", cellValue "Autor" ((splitNl s).map process))] := rfl
  have h2 : cellValue "Autor" ((splitNl s).map process) = FieldVal.str s := by
    rw [hsplit]
    simp [cellValue, narrativeTerms, joinWith, hproc, hstrip]
  have h3 : extractCells [s] [("Autor", FieldVal.str s)] =
      .ok [("Autor", FieldVal.str s)] := by
    simp only [extractCells]
    rw [hc]
    simp [extractCells]
  have h4 : extractCells ["Autor:", s] [] = Except.ok [("Autor", FieldVal.str s)] := by
    rw [h1, h2]
    exact h3
  have h5 : extract_review env html = extractReviewCells ["Autor:", s] := by
    unfold extract_review
    rw [hcells]
  rw [h5]
  unfold extractReviewCells
  rw [h4]
  rfl

theorem extract_review_author_verbatim_witness :
    (envR.parseReviewCells (pyReplace "page" "<br>" "\n") = some ["Autor:", "Doe, John,"] ∧
     containsChar "Doe, John," ':' = false ∧
     containsChar "Doe, John," '\n' = false ∧
     pyStrip "Doe, John," = "Doe, John," ∧
     process "Doe, John," = "Doe, John,") ∧
    extract_review envR "page" = .ok [("Autor", FieldVal.str "Doe, John,")] :=
  ⟨⟨by decide, by decide, by decide, by decide, by decide⟩,
   extract_review_author_verbatim envR "page" "Doe, John," (by decide) (by decide)
     (by decide) (by decide) (by decide)⟩

/-! ### Claim C8: clearing the cache -/

theorem leadsWithL_append_self (p t : List Char) : leadsWithL p (p ++ t) = true := by
  induction p with
  | nil => rfl
  | cons c cs ih => simp [leadsWithL, ih]

theorem dropLead_append (p l : List Char) : dropLead p (p ++ l) = some l := by
  induction p with
  | nil => rfl
  | cons c cs ih => simp [dropLead, ih]

theorem hexChar_good (n : Nat) : hexChar n ≠ '.' ∧ hexChar n ≠ '/' := by
  have hmem : hexChar n ∈ '0' :: hexDigits := by
    unfold hexChar
    rw [List.getD_eq_getElem?_getD]
    rcases hg : hexDigits[n]? with _ | c
    · exact List.mem_cons_self _ _
    · exact List.mem_cons_of_mem _ (List.getElem?_mem hg)
  exact (by decide : ∀ c ∈ '0' :: hexDigits, c ≠ '.' ∧ c ≠ '/') _ hmem

theorem md5Hex_chars (s : String) (c : Char) (hc : c ∈ (md5Hex s).data) :
    c ≠ '.' ∧ c ≠ '/' := by
  have hc' : c ∈ (md5Bytes (utf8Bytes s)).flatMap byteHex := hc
  rw [List.mem_flatMap] at hc'
  obtain ⟨b, _, hcb⟩ := hc'
  simp only [byteHex, List.mem_cons, List.not_mem_nil, or_false] at hcb
  rcases hcb with rfl | rfl
  · exact hexChar_good _
  · exact hexChar_good _

theorem md5Hex_ne_nil (s : String) : (md5Hex s).data ≠ [] := by
  show (md5Bytes (utf8Bytes s)).flatMap byteHex ≠ []
  unfold md5Bytes
  simp [le4, byteHex]

theorem assocGet_filter_of_pred {α : Type} (fs : List (String × α))
    (p : String → Bool) (k : String) (h : p k = true) :
    assocGet (fs.filter fun e => p e.1) k = assocGet fs k := by
  induction fs with
  | nil => rfl
  | cons e rest ih =>
    obtain ⟨f, c⟩ := e
    by_cases hf : f = k
    · subst hf
      simp [List.filter_cons, h, assocGet]
    · by_cases hp : p f <;> simp [List.filter_cons, hp, assocGet, hf, ih]

theorem assocGet_filter_of_not {α : Type} (fs : List (String × α))
    (p : String → Bool) (k : String) (h : p k = false) :
    assocGet (fs.filter fun e => p e.1) k = none := by
  induction fs with
  | nil => rfl
  | cons e rest ih =>
    obtain ⟨f, c⟩ := e
    by_cases hp : p f
    · have hf : ¬f = k := by
        intro he
        rw [he, h] at hp
        cases hp
      simp [List.filter_cons, hp, assocGet, hf, ih]
    · simp [List.filter_cons, hp, ih]

theorem baseOkJson_json (c : Char) (cs : List Char)
    (hgood : c ≠ '.' ∧ c ≠ '/') (hcs : ∀ x ∈ cs, x ≠ '/') :
    baseOkJson ((c :: cs) ++ ".json".data) = true := by
  have hjson : ∀ x ∈ ".json".data, x ≠ '/' := by decide
  have hlead : leadsWithL ".json".data.reverse ((c :: cs) ++ ".json".data).reverse
      = true := by
    rw [List.reverse_append]
    exact leadsWithL_append_self _ _
  have hall : ((c :: cs) ++ ".json".data).all (fun x => decide (x ≠ '/')) = true := by
    rw [List.all_eq_true]
    intro x hx
    rcases List.mem_append.mp hx with h | h
    · rcases List.mem_cons.mp h with rfl | h'
      · exact decide_eq_true hgood.2
      · exact decide_eq_true (hcs x h')
    · exact decide_eq_true (hjson x h)
  have hhead : headNotDot ((c :: cs) ++ ".json".data) = decide (c ≠ '.') := rfl
  unfold baseOkJson
  rw [hhead, hall, hlead, decide_eq_true hgood.1]
  rfl

theorem baseOkJson_html (rd : List Char) : baseOkJson (rd ++ ".html".data) = false := by
  have hlead : leadsWithL ".json".data.reverse (rd ++ ".html".data).reverse
      = false := by
    rw [List.reverse_append,
        show (".html".data).reverse = ['l', 'm', 't', 'h', '.'] from rfl,
        show (".json".data).reverse = ['n', 'o', 's', 'j', '.'] from rfl]
    simp [leadsWithL]
  unfold baseOkJson
  rw [hlead, Bool.and_false]

theorem globJson_hash2file (params : PyDict) : globJson (hash2file params) = true := by
  obtain ⟨c, cs, hcons⟩ := List.exists_cons_of_ne_nil (md5Hex_ne_nil (pyStr params))
  have hc2 : (dict2hash params).data = c :: cs := hcons
  have hgood : c ≠ '.' ∧ c ≠ '/' :=
    md5Hex_chars (pyStr params) c (by rw [hcons]; exact List.mem_cons_self _ _)
  have hcs : ∀ x ∈ cs, x ≠ '/' := fun x hx =>
    (md5Hex_chars (pyStr params) x (by rw [hcons]; exact List.mem_cons_of_mem _ hx)).2
  have hdata : (hash2file params).data =
      (cacheDir ++ "/").data ++ ((c :: cs) ++ ".json".data) := by
    have h0 : (hash2file params).data =
        (cacheDir ++ "/").data ++ ((dict2hash params).data ++ ".json".data) := by
      simp [hash2file, data_append, List.append_assoc]
    rw [h0, hc2]
  unfold globJson
  rw [hdata, dropLead_append]
  exact baseOkJson_json c cs hgood hcs

theorem globJson_id2file (review : String) : globJson (id2file review) = false := by
  have hdata : (id2file review).data =
      (cacheDir ++ "/").data ++ (review.data ++ ".html".data) := by
    simp [id2file, data_append, List.append_assoc]
  unfold globJson
  rw [hdata, dropLead_append]
  exact baseOkJson_html review.data

/-- C8. `clear_cache` removes every params-hash-keyed JSON result file from
the cache directory (their basenames are 32 hex characters plus `.json`, so
`glob('.db/*.json')` matches them) and leaves every ReviewId-keyed HTML
review file exactly as it was (`*.json` cannot match a `.html` path). -/
theorem clear_cache_spec (st : St) (params : PyDict) (review : String) :
    assocGet (clear_cache st).fs (hash2file params) = none ∧
    assocGet (clear_cache st).fs (id2file review) = assocGet st.fs (id2file review) := by
  constructor
  · exact assocGet_filter_of_not st.fs (fun s => !globJson s) _
      (by simp [globJson_hash2file])
  · exact assocGet_filter_of_pred st.fs (fun s => !globJson s) _
      (by simp [globJson_id2file])

/-! ### Claims C2 and C4: the pagination loop -/

theorem fetch_results_fresh (env : Env) (st : St) (params : PyDict) (ids : List String)
    (hfresh : assocGet st.fs (hash2file params) = none)
    (hids : (extract_results env (env.server (pyMerge baseParams params))).2 =
      .ok ids) :
    fetch_results env st params =
      (⟨st.fs ++ [(hash2file params, .json ids)],
        st.calls ++ [pyMerge baseParams params]⟩, .ok true) := by
  have h1 : (assocGet st.fs (hash2file params)).isSome = false := by
    rw [hfresh]; rfl
  unfold fetch_results call_api
  simp [h1, hids, writeFile, assocSet_of_none _ _ _ hfresh]

theorem pagesLoop_spec (env : Env) (l : List Nat) :
    ∀ (st : St) (params : PyDict),
    (∀ i ∈ l, assocGet st.fs (hash2file (ppage params i)) = none) →
    List.Pairwise
      (fun i j => hash2file (ppage params i) ≠ hash2file (ppage params j)) l →
    (∀ i ∈ l, ∃ ids,
      (extract_results env (env.server (pyMerge baseParams (ppage params i)))).2 =
        .ok ids) →
    ∃ extra : List (String × FileContent),
      pagesLoop env st params l =
        (⟨st.fs ++ extra, st.calls ++ l.map (fun i => pyMerge baseParams (ppage params i))⟩,
         l.foldl (fun p i => assocSet p "start" (natStr (i * 50))) params,
         l.map (fun i => hash2file (ppage params i)),
         none) := by
  induction l with
  | nil =>
    intro st params _ _ _
    exact ⟨[], by simp [pagesLoop]⟩
  | cons i rest ih =>
    intro st params hfresh hpair hok
    obtain ⟨ids, hids⟩ := hok i (List.mem_cons_self _ _)
    have hcollapse : ∀ j : Nat, ppage (ppage params i) j = ppage params j := by
      intro j
      exact assocSet_assocSet params "start" _ _
    have hfr : fetch_results env st (assocSet params "start" (natStr (i * 50))) =
        (⟨st.fs ++ [(hash2file (ppage params i), FileContent.json ids)],
          st.calls ++ [pyMerge baseParams (ppage params i)]⟩, .ok true) :=
      fetch_results_fresh env st (ppage params i) ids
        (hfresh i (List.mem_cons_self _ _)) hids
    have hfresh' : ∀ j ∈ rest,
        assocGet (st.fs ++ [(hash2file (ppage params i), FileContent.json ids)])
          (hash2file (ppage (ppage params i) j)) = none := by
      intro j hj
      rw [hcollapse j]
      have hne : ¬hash2file (ppage params i) = hash2file (ppage params j) :=
        (List.pairwise_cons.mp hpair).1 j hj
      rw [assocGet_append_of_none _ _ _ (hfresh j (List.mem_cons_of_mem _ hj))]
      simp [assocGet, hne]
    have hpair' : List.Pairwise
        (fun a b => hash2file (ppage (ppage params i) a) ≠
          hash2file (ppage (ppage params i) b)) rest := by
      have h2 := (List.pairwise_cons.mp hpair).2
      simpa [hcollapse] using h2
    have hok' : ∀ j ∈ rest, ∃ ids2,
        (extract_results env
          (env.server (pyMerge baseParams (ppage (ppage params i) j)))).2 =
          .ok ids2 := by
      intro j hj
      rw [hcollapse j]
      exact hok j (List.mem_cons_of_mem _ hj)
    obtain ⟨extra, hrec⟩ :=
      ih ⟨st.fs ++ [(hash2file (ppage params i), FileContent.json ids)],
          st.calls ++ [pyMerge baseParams (ppage params i)]⟩
        (ppage params i) hfresh' hpair' hok'
    refine ⟨(hash2file (ppage params i), FileContent.json ids) :: extra, ?_⟩
    have hrec' : pagesLoop env
        ⟨st.fs ++ [(hash2file (ppage params i), FileContent.json ids)],
         st.calls ++ [pyMerge baseParams (ppage params i)]⟩
        (assocSet params "start" (natStr (i * 50))) rest =
        (⟨(st.fs ++ [(hash2file (ppage params i), FileContent.json ids)]) ++ extra,
          (st.calls ++ [pyMerge baseParams (ppage params i)]) ++
            rest.map (fun j => pyMerge baseParams (ppage (ppage params i) j))⟩,
         rest.foldl (fun p j => assocSet p "start" (natStr (j * 50))) (ppage params i),
         rest.map (fun j => hash2file (ppage (ppage params i) j)),
         none) := hrec
    show pagesLoop env st params (i :: rest) = _
    rw [pagesLoop, hfr]
    simp [hrec', hcollapse, List.append_assoc]
    exact ⟨rfl, rfl⟩

/-- A full run of `get_results` from the empty state, for a query whose first
page reports `n` matches, whose page fetches all extract successfully, and
whose page cache keys do not collide: the request log ends with `2 + n / 50`
entries (page 0 is requested twice: once directly and once by
`fetch_results`, whose JSON cache is empty), and the caller's shared params
dict ends mutated by the loop's in-place `params['start']` assignments. -/
theorem get_results_run (env : Env) (params : PyDict) (n : Nat) (ms : List Nat)
    (hcount : env.countMatches (env.server (pyMerge baseParams params)) = n :: ms)
    (hok0 : ∃ ids,
      (extract_results env (env.server (pyMerge baseParams params))).2 = .ok ids)
    (hok : ∀ i ∈ List.range' 1 (n / 50), ∃ ids,
      (extract_results env (env.server (pyMerge baseParams (ppage params i)))).2 =
        .ok ids)
    (hdist0 : ∀ i ∈ List.range' 1 (n / 50),
      hash2file (ppage params i) ≠ hash2file params)
    (hpair : List.Pairwise
      (fun i j => hash2file (ppage params i) ≠ hash2file (ppage params j))
      (List.range' 1 (n / 50))) :
    (get_results env st0 params).1.calls.length = 2 + n / 50 ∧
    (get_results env st0 params).2.1 =
      (List.range' 1 (n / 50)).foldl
        (fun p i => assocSet p "start" (natStr (i * 50))) params := by
  obtain ⟨ids0, hids0⟩ := hok0
  have hfr0 : fetch_results env ⟨[], [pyMerge baseParams params]⟩ params =
      (⟨[(hash2file params, FileContent.json ids0)],
        [pyMerge baseParams params, pyMerge baseParams params]⟩, .ok true) :=
    fetch_results_fresh env ⟨[], [pyMerge baseParams params]⟩ params ids0 rfl hids0
  have hfreshA : ∀ i ∈ List.range' 1 (n / 50),
      assocGet ([(hash2file params, FileContent.json ids0)] :
        List (String × FileContent)) (hash2file (ppage params i)) = none := by
    intro i hi
    have hne : ¬hash2file params = hash2file (ppage params i) :=
      fun h => hdist0 i hi h.symm
    simp [assocGet, hne]
  obtain ⟨extra, hloop⟩ := pagesLoop_spec env (List.range' 1 (n / 50))
    ⟨[(hash2file params, FileContent.json ids0)],
     [pyMerge baseParams params, pyMerge baseParams params]⟩ params hfreshA hpair hok
  have hloop' : pagesLoop env
      ⟨[(hash2file params, FileContent.json ids0)],
       [pyMerge baseParams params, pyMerge baseParams params]⟩ params
      (List.range' 1 (n / 50)) =
      (⟨(hash2file params, FileContent.json ids0) :: extra,
        pyMerge baseParams params :: pyMerge baseParams params ::
          (List.range' 1 (n / 50)).map (fun i => pyMerge baseParams (ppage params i))⟩,
       (List.range' 1 (n / 50)).foldl
         (fun p i => assocSet p "start" (natStr (i * 50))) params,
       (List.range' 1 (n / 50)).map (fun i => hash2file (ppage params i)),
       none) := hloop
  rcases hE : loadAll ((hash2file params, FileContent.json ids0) :: extra)
      ((List.range' 1 (n / 50)).map fun i => hash2file (ppage params i)) with e | more
  all_goals
    simp [get_results, call_api, st0, hcount, hfr0, hloop', hids0, hE,
      List.length_append, List.length_range', List.length_map]
  all_goals omega

theorem foldl_ppage (params : PyDict) (k : Nat) (hk : 1 ≤ k) :
    (List.range' 1 k).foldl (fun p i => assocSet p "start" (natStr (i * 50))) params =
      assocSet params "start" (natStr (k * 50)) := by
  induction k with
  | zero => exact absurd hk (by omega)
  | succ k ih =>
    by_cases hk0 : k = 0
    · subst hk0
      rfl
    · have hk1 : 1 ≤ k := by omega
      rw [List.range'_1_concat, List.foldl_append, ih hk1, List.foldl_cons,
        List.foldl_nil, assocSet_assocSet,
        show (1 + k) * 50 = (k + 1) * 50 from by ring]

/-- C2, counterexample. Empty cache, a query whose first page reports 10
matches: the claim predicts `1 + floor(10/50) = 1` total page fetches, but
`get_results` requests page 0 and then `fetch_results` (whose JSON cache is
empty) requests page 0 again — 2 fetches. -/
theorem get_results_extra_fetch_cex :
    (get_results (envN 10) st0 []).1.calls.length = 2 ∧
    (2 : Nat) ≠ 1 + 10 / 50 := by
  constructor
  · decide
  · decide

/-- C2, amended. On an empty cache, for a first results page reporting `N`
matches (with distinct page cache keys and successful extraction), the
paginator issues exactly `floor(N/50) + 1` page fetches beyond the first
fetch of page 0, i.e. `2 + floor(N/50)` in total: `fetch_results` does not
reuse the initial page-0 response and fetches page 0 a second time, plus one
fetch per subsequent page. -/
theorem get_results_fetch_count (env : Env) (params : PyDict) (n : Nat)
    (ms : List Nat)
    (hcount : env.countMatches (env.server (pyMerge baseParams params)) = n :: ms)
    (hok0 : ∃ ids,
      (extract_results env (env.server (pyMerge baseParams params))).2 = .ok ids)
    (hok : ∀ i ∈ List.range' 1 (n / 50), ∃ ids,
      (extract_results env (env.server (pyMerge baseParams (ppage params i)))).2 =
        .ok ids)
    (hdist0 : ∀ i ∈ List.range' 1 (n / 50),
      hash2file (ppage params i) ≠ hash2file params)
    (hpair : List.Pairwise
      (fun i j => hash2file (ppage params i) ≠ hash2file (ppage params j))
      (List.range' 1 (n / 50))) :
    (get_results env st0 params).1.calls.length = 1 + (n / 50 + 1) :=
  by
  have h := (get_results_run env params n ms hcount hok0 hok hdist0 hpair).1
  omega

theorem get_results_fetch_count_witness :
    (envN 60).countMatches ((envN 60).server (pyMerge baseParams [])) = [60] ∧
    (get_results (envN 60) st0 []).1.calls.length = 1 + (60 / 50 + 1) :=
  ⟨rfl,
   get_results_fetch_count (envN 60) [] 60 [] rfl ⟨["7"], rfl⟩
     (fun i _ => ⟨["7"], rfl⟩)
     (by
       intro i hi
       have : i = 1 := by simpa using hi
       subst this
       decide)
     (by
       have : List.range' 1 (60 / 50) = [1] := rfl
       rw [this]
       exact List.pairwise_singleton _ _)⟩

/-- C4, counterexample. Empty cache, a query reporting 50 matches, caller
params `\x7b\x7d`: after `get_results` returns, the caller's dict has gained the
key `start` (set to `'50'`) because the loop assigns `params['start']` on the
shared dict instead of a copy. -/
theorem get_results_mutates_params_cex :
    (get_results (envN 50) st0 []).2.1 = [("start", "50")] ∧
    ([("start", "50")] : PyDict) ≠ [] := by
  constructor
  · decide
  · decide

/-- C4, amended. The per-page start offset is set on the caller's shared
params dict, not a copy: after `get_results` on an empty cache with a
first-page match count `N ≥ 50` (distinct page cache keys, successful
extraction), the caller's mapping has `start` bound to
`str(50 * floor(N/50))` — it is mutated whenever at least one subsequent
page exists (and only left unchanged when `floor(N/50) = 0`). -/
theorem get_results_params_mutation (env : Env) (params : PyDict) (n : Nat)
    (ms : List Nat)
    (hcount : env.countMatches (env.server (pyMerge baseParams params)) = n :: ms)
    (hok0 : ∃ ids,
      (extract_results env (env.server (pyMerge baseParams params))).2 = .ok ids)
    (hok : ∀ i ∈ List.range' 1 (n / 50), ∃ ids,
      (extract_results env (env.server (pyMerge baseParams (ppage params i)))).2 =
        .ok ids)
    (hdist0 : ∀ i ∈ List.range' 1 (n / 50),
      hash2file (ppage params i) ≠ hash2file params)
    (hpair : List.Pairwise
      (fun i j => hash2file (ppage params i) ≠ hash2file (ppage params j))
      (List.range' 1 (n / 50)))
    (hn : 50 ≤ n) :
    (get_results env st0 params).2.1 =
      assocSet params "start" (natStr (n / 50 * 50)) := by
  have h := (get_results_run env params n ms hcount hok0 hok hdist0 hpair).2
  have hk : 1 ≤ n / 50 := by
    have := Nat.div_le_div_right (c := 50) hn
    simpa using this
  rw [h, foldl_ppage params (n / 50) hk]

theorem get_results_params_mutation_witness :
    ((envN 50).countMatches ((envN 50).server (pyMerge baseParams [])) = [50] ∧
     50 ≤ 50) ∧
    (get_results (envN 50) st0 []).2.1 =
      assocSet [] "start" (natStr (50 / 50 * 50)) :=
  ⟨⟨rfl, by omega⟩,
   get_results_params_mutation (envN 50) [] 50 [] rfl ⟨["7"], rfl⟩
     (fun i _ => ⟨["7"], rfl⟩)
     (by
       intro i hi
       have : i = 1 := by simpa using hi
       subst this
       decide)
     (by
       have : List.range' 1 (50 / 50) = [1] := rfl
       rw [this]
       exact List.pairwise_singleton _ _)
     (by omega)⟩

/-! ### Claim C3: deduplication -/

theorem setAdd_nodup (acc : List String) (x : String) (h : acc.Nodup) :
    (setAdd acc x).Nodup := by
  unfold setAdd
  by_cases hx : x ∈ acc
  · simp [hx, h]
  · simp [hx, List.nodup_append, h]

theorem collectIds_nodup (red : PyDict) :
    ∀ (links : List PyDict) (acc ids : List String),
    collectIds red links acc = Except.ok ids → acc.Nodup → ids.Nodup := by
  intro links
  induction links with
  | nil =>
    intro acc ids h hn
    cases h
    exact hn
  | cons q rest ih =>
    intro acc ids h hn
    cases hq : assocGet q "id" with
    | none =>
      simp only [collectIds, hq] at h
      exact ih acc ids h hn
    | some r0 =>
      simp only [collectIds, hq] at h
      by_cases hd : startsDigit
          (match assocGet red r0 with | some r => r | none => r0)
      · simp only [hd, Bool.not_true, Bool.false_eq_true, if_false] at h
        exact ih _ ids h (setAdd_nodup _ _ hn)
      · simp only [Bool.not_eq_true] at hd
        simp only [hd, Bool.not_false, if_true] at h
        cases h

/-- C3, counterexample. A query reporting 50 matches whose page 0 and page 1
each link review `7`: the final list returned by `get_results` contains `7`
twice — page lists are concatenated with `extend`, with no cross-page
deduplication. -/
theorem get_results_cross_page_dup_cex :
    (get_results (envN 50) st0 []).2.2 = .ok ["7", "7"] ∧
    ¬(["7", "7"].count "7" ≤ 1) := by
  constructor
  · decide
  · decide

/-- C3, amended. Deduplication is per page only: each results page's
extracted id list contains no duplicates (ids are collected into a set
before being returned as a list), but `get_results` concatenates the pages'
lists, so an id appearing on several pages occurs once per such page in the
final list (see the counterexample). -/
theorem extract_results_page_nodup (env : Env) (html : String) (ids : List String)
    (h : (extract_results env html).2 = Except.ok ids) : ids.Nodup := by
  unfold extract_results at h
  cases hp : env.parsePage html with
  | none =>
    rw [hp] at h
    cases h
  | some links =>
    simp only [hp] at h
    exact collectIds_nodup env.redirects links [] ids h List.nodup_nil

theorem extract_results_page_nodup_witness :
    (extract_results (envN 50) "PAGE").2 = Except.ok ["7"] ∧
    (["7"] : List String).Nodup :=
  ⟨rfl, extract_results_page_nodup (envN 50) "PAGE" ["7"] rfl⟩

/-! ### Claim C10: get_reviews -/

theorem assocGet_none_not_mem {α : Type} (d : List (String × α)) (k : String)
    (h : assocGet d k = none) (v : α) : (k, v) ∉ d := by
  induction d with
  | nil => simp
  | cons e rest ih =>
    obtain ⟨k0, v0⟩ := e
    by_cases h0 : k0 = k
    · rw [assocGet, if_pos h0] at h
      cases h
    · rw [assocGet, if_neg h0] at h
      intro hmem
      rcases List.mem_cons.mp hmem with he | he
      · exact h0 (congrArg Prod.fst he).symm
      · exact ih h he

theorem id2file_inj {a b : String} (h : id2file a = id2file b) : a = b := by
  have hd := congrArg String.data h
  simp only [id2file, data_append, cacheDir, List.append_assoc] at hd
  have hd2 : a.data ++ ".html".data = b.data ++ ".html".data := by
    have := hd
    simpa using this
  have hd3 : a.data = b.data := by
    have hlen : a.data.length = b.data.length := by
      have hl := congrArg List.length hd2
      simpa using hl
    exact List.append_inj_left hd2 hlen
  cases a
  cases b
  exact congrArg String.mk hd3

theorem get_review_step (env : Env) (base : List (String × FileContent)) (st : St)
    (r : String)
    (hInv : CacheInv env base st.fs)
    (hfresh : assocGet base (id2file r) = none)
    (hext : hasSub (pageOf env r) marker = true →
      ∃ c, extract_review env (pageOf env r) = Except.ok c) :
    ∃ c, (get_review env st r).2 = Except.ok c ∧
      CacheInv env base (get_review env st r).1.fs ∧
      (hasSub (pageOf env r) marker = false →
        c = [] ∧ (get_review env st r).1.fs = st.fs) := by
  obtain ⟨extra, hfs, hextra⟩ := hInv
  cases hc : assocGet st.fs (id2file r) with
  | some v =>
    have hv : (id2file r, v) ∈ st.fs := assocGet_mem _ _ _ hc
    rw [hfs] at hv
    rcases List.mem_append.mp hv with hv | hv
    · exact absurd hv (assocGet_none_not_mem base (id2file r) hfresh v)
    · obtain ⟨r2, he, hmark⟩ := hextra _ hv
      have hrr : r = r2 := id2file_inj (congrArg Prod.fst he)
      subst hrr
      have hve : v = FileContent.html (pageOf env r) := congrArg Prod.snd he
      subst hve
      have hget : get_review env st r = (st, extract_review env (pageOf env r)) := by
        unfold get_review fetch_review
        simp [hc]
      obtain ⟨c, hcok⟩ := hext hmark
      refine ⟨c, by rw [hget]; exact hcok, by rw [hget]; exact ⟨extra, hfs, hextra⟩, ?_⟩
      intro hf
      rw [hf] at hmark
      cases hmark
  | none =>
    have h1 : (assocGet st.fs (id2file r)).isSome = false := by rw [hc]; rfl
    by_cases hmv : hasSub (pageOf env r) marker = true
    · have hm' : hasSub (env.server (pyMerge baseParams [("id", r)])) marker = true := hmv
      have hw : writeFile st.fs (id2file r)
          (FileContent.html (env.server (pyMerge baseParams [("id", r)]))) =
          st.fs ++ [(id2file r, FileContent.html
            (env.server (pyMerge baseParams [("id", r)])))] :=
        assocSet_of_none st.fs (id2file r) _ hc
      have hlook : assocGet (st.fs ++ [(id2file r, FileContent.html
            (env.server (pyMerge baseParams [("id", r)])))]) (id2file r) =
          some (FileContent.html (env.server (pyMerge baseParams [("id", r)]))) := by
        rw [assocGet_append_of_none _ _ _ hc]
        simp [assocGet]
      have hget : get_review env st r =
          (⟨st.fs ++ [(id2file r, FileContent.html (pageOf env r))],
            st.calls ++ [pyMerge baseParams [("id", r)]]⟩,
           extract_review env (pageOf env r)) := by
        unfold get_review fetch_review call_api
        simp [h1, hm', hw, hlook, pageOf]
      obtain ⟨c, hcok⟩ := hext hmv
      refine ⟨c, by rw [hget]; exact hcok, ?_, ?_⟩
      · rw [hget]
        refine ⟨extra ++ [(id2file r, FileContent.html (pageOf env r))], ?_, ?_⟩
        · rw [hfs, List.append_assoc]
        · intro e he
          rcases List.mem_append.mp he with he | he
          · exact hextra e he
          · rcases List.mem_cons.mp he with rfl | he
            · exact ⟨r, rfl, hmv⟩
            · cases he
      · intro hf
        rw [hf] at hmv
        cases hmv
    · rw [Bool.not_eq_true] at hmv
      have hm' : hasSub (env.server (pyMerge baseParams [("id", r)])) marker = false := hmv
      have hget : get_review env st r =
          (⟨st.fs, st.calls ++ [pyMerge baseParams [("id", r)]]⟩, .ok []) := by
        unfold get_review fetch_review call_api
        simp [h1, hm']
      exact ⟨[], by rw [hget], by rw [hget]; exact ⟨extra, hfs, hextra⟩,
        fun _ => ⟨rfl, by rw [hget]⟩⟩

theorem getReviewsLoop_spec (env : Env) (base : List (String × FileContent)) :
    ∀ (l : List String) (st : St) (data : List (String × PyRecord)),
    CacheInv env base st.fs →
    (∀ r ∈ l, assocGet base (id2file r) = none) →
    (∀ r ∈ l, hasSub (pageOf env r) marker = true →
      ∃ c, extract_review env (pageOf env r) = Except.ok c) →
    ∃ st1 data1, getReviewsLoop env st data l = (st1, Except.ok data1) ∧
      (∀ k, k ∈ data1.map Prod.fst ↔ (k ∈ data.map Prod.fst ∨ k ∈ l)) ∧
      (∀ r ∈ l, hasSub (pageOf env r) marker = false →
        assocGet data1 r = some ([] : PyRecord)) ∧
      (∀ r, r ∉ l → assocGet data1 r = assocGet data r) := by
  intro l
  induction l with
  | nil =>
    intro st data hInv _ _
    exact ⟨st, data, rfl, by simp, by simp, fun r _ => rfl⟩
  | cons r rest ih =>
    intro st data hInv hfresh hext
    obtain ⟨c, hok, hInv1, hfail⟩ := get_review_step env base st r hInv
      (hfresh r (List.mem_cons_self _ _)) (hext r (List.mem_cons_self _ _))
    have hgr : get_review env st r = ((get_review env st r).1, Except.ok c) := by
      rcases hgg : get_review env st r with ⟨stx, resx⟩
      rw [hgg] at hok
      simp only at hok
      rw [hok]
    have hstep : getReviewsLoop env st data (r :: rest) =
        getReviewsLoop env (get_review env st r).1 (assocSet data r c) rest := by
      rw [getReviewsLoop, hgr]
    obtain ⟨st2, data1, hloop, hkeys, hfails, hframe⟩ :=
      ih ((get_review env st r).1) (assocSet data r c) hInv1
        (fun x hx => hfresh x (List.mem_cons_of_mem _ hx))
        (fun x hx => hext x (List.mem_cons_of_mem _ hx))
    refine ⟨st2, data1, by rw [hstep, hloop], ?_, ?_, ?_⟩
    · intro k
      rw [hkeys k, assocSet_keys]
      simp only [List.mem_cons]
      tauto
    · intro x hx hf
      rcases List.mem_cons.mp hx with rfl | hx'
      · by_cases hxr : x ∈ rest
        · exact hfails x hxr hf
        · rw [hframe x hxr, assocGet_set_self, (hfail hf).1]
      · exact hfails x hx' hf
    · intro x hx
      have hxr : x ∉ rest := fun h => hx (List.mem_cons_of_mem _ h)
      have hxne : x ≠ r := fun h => hx (h ▸ List.mem_cons_self _ _)
      rw [hframe x hxr, assocGet_set_ne _ _ _ _ hxne]

/-- C10. `get_reviews` returns a mapping whose key set is exactly the set of
identifiers in the input list (for ids fresh in the cache whose valid pages
extract successfully), and an id whose page fails the disclaimer validation
is still present as a key, mapped to the empty record, rather than being
omitted or raising. -/
theorem get_reviews_key_spec (env : Env) (st : St) (reviews : List String)
    (hfresh : ∀ r ∈ reviews, assocGet st.fs (id2file r) = none)
    (hext : ∀ r ∈ reviews, hasSub (pageOf env r) marker = true →
      ∃ c, extract_review env (pageOf env r) = Except.ok c) :
    ∃ data, (get_reviews env st reviews).2 = Except.ok data ∧
      (∀ k, k ∈ data.map Prod.fst ↔ k ∈ reviews) ∧
      (∀ r ∈ reviews, hasSub (pageOf env r) marker = false →
        assocGet data r = some ([] : PyRecord)) := by
  have hInv : CacheInv env st.fs st.fs := ⟨[], by simp, by simp⟩
  obtain ⟨st1, data1, hloop, hkeys, hfails, _⟩ :=
    getReviewsLoop_spec env st.fs reviews st [] hInv hfresh hext
  refine ⟨data1, ?_, ?_, hfails⟩
  · unfold get_reviews
    rw [hloop]
  · intro k
    have h := hkeys k
    simpa using h

theorem get_reviews_key_spec_witness :
    ((∀ r ∈ ["1"], assocGet st0.fs (id2file r) = none) ∧
     hasSub (pageOf envE "1") marker = false) ∧
    (∃ data, (get_reviews envE st0 ["1"]).2 = Except.ok data ∧
      (∀ k, k ∈ data.map Prod.fst ↔ k ∈ ["1"]) ∧
      (∀ r ∈ ["1"], hasSub (pageOf envE r) marker = false →
        assocGet data r = some ([] : PyRecord))) :=
  ⟨⟨by decide, by decide⟩,
   get_reviews_key_spec envE st0 ["1"] (by decide)
     (fun r hr h => absurd h (by
       have hr1 : r = "1" := by simpa using hr
       subst hr1
       decide))⟩

end Ajum

